import Mathlib

/-!
Shallow embedding of the `keeper` transaction-submission library.

Sources embedded here:
* `src/keeper/api/__init__.py` — `Receipt.__init__`, `Transact._gas`,
  `Transact.transact_async` (the estimate → nonce → submit → poll →
  reprice/resubmit loop);
* `src/keeper/api/oasis.py` — `SimpleMarket.get_offer` (sticky absent-offer
  cache) and `MatchingMarket.position` (order-book insertion position);
* `src/tests/api/test_gas.py` — behaviour of the gas pricers.

The modules `keeper/api/gas.py`, `keeper/api/numeric.py` and
`keeper/api/util.py` are not present under `src/`; definitions taken from the
specification instead of source code carry a doc comment starting with
`Modelled from the spec:`.

Python unbounded integers are embedded as `Nat`/`Int`; Python `None` as
`Option.none`; raised exceptions as `Except.error`.  The unbounded polling
loop of `transact_async` is run on explicit fuel: the runner returns `none`
while the loop has not reached a terminal outcome within the given number of
iterations.
-/

namespace Keeper

/-- Modelled from the spec: `keeper/api/gas.py` is absent from `src/`.
Per §4.1 of the specification and `test_gas.py`, `DefaultGasPrice` always
returns the absent price (`None`), letting the node choose a default. -/
def DefaultGasPrice.get_gas_price (_seconds_elapsed : Nat) : Option Int :=
  none

/-- Error raised by gas-pricer constructors on bad arguments (spec §7). -/
inductive GasPriceError where
  | invalidConfig
deriving DecidableEq

/-- Modelled from the spec: `keeper/api/gas.py` is absent from `src/`.
Configuration record of `IncreasingGasPrice(initial_price, increase_by,
every_secs)` per §4.1 of the specification and `test_gas.py`. -/
structure IncreasingGasPrice where
  initial_price : Int
  increase_by : Int
  every_secs : Int
deriving DecidableEq

/-- Modelled from the spec: the `IncreasingGasPrice` constructor fails with
`InvalidConfig` if `increase_by <= 0` or `every_secs <= 0` (spec §4.1,
exercised by `test_gas.py`). -/
def IncreasingGasPrice.make (initial_price increase_by every_secs : Int) :
    Except GasPriceError IncreasingGasPrice :=
  if increase_by ≤ 0 then
    .error .invalidConfig
  else if every_secs ≤ 0 then
    .error .invalidConfig
  else
    .ok ⟨initial_price, increase_by, every_secs⟩

/-- Modelled from the spec: `get_gas_price` of `IncreasingGasPrice` returns
`initial_price + increase_by * floor(seconds_elapsed / every_secs)`
(spec §4.1; values checked against `test_gas.py`). -/
def IncreasingGasPrice.get_gas_price (g : IncreasingGasPrice)
    (seconds_elapsed : Nat) : Int :=
  g.initial_price + g.increase_by * ((seconds_elapsed : Int) / g.every_secs)

/-- Raw transaction receipt as returned by the chain client: only the field
inspected by `Receipt.__init__` for the success flag is kept.  `logs` is
`none` when the node reports a null log list; log entries are opaque. -/
structure RawReceipt where
  logs : Option (List Nat)
deriving DecidableEq

/-- Embeds `keeper.api.Receipt` restricted to its `successful` flag.
The transfer extraction of `Receipt.__init__` (ABI decoding of ERC20
`Transfer` logs via web3) is external data marshaling and not embedded. -/
structure Receipt where
  successful : Bool
deriving DecidableEq

/-- Embeds the success classification of `Receipt.__init__`
(`src/keeper/api/__init__.py` lines 219-232): successful iff the log list is
present (non-null) and has at least one entry. -/
def mkReceipt (receipt : RawReceipt) : Receipt :=
  match receipt.logs with
  | some receipt_logs => ⟨decide (receipt_logs.length > 0)⟩
  | none => ⟨false⟩

/-- Keyword arguments recognised by `Transact.transact_async`:
`gas`, `gas_buffer` and `gas_price` (a pricing function from elapsed seconds
to an optional gas price). -/
structure TxOpts where
  gas : Option Nat
  gas_buffer : Option Nat
  gas_price : Option (Nat → Option Int)

/-- Embeds `Transact._gas` (`src/keeper/api/__init__.py` lines 271-277):
the explicit `gas` option wins, else estimate plus `gas_buffer`, else
estimate plus the default buffer of 100000. -/
def Transact.gasFor (opts : TxOpts) (gas_estimate : Nat) : Nat :=
  match opts.gas with
  | some gas => gas
  | none =>
    match opts.gas_buffer with
    | some gas_buffer => gas_estimate + gas_buffer
    | none => gas_estimate + 100000

/-- Environment seen by one `transact_async` run.  Each blockchain
interaction is a function of the poll-loop iteration index, standing for the
chain state at the moment the call is made.  Transaction hashes are opaque
naturals. -/
structure TxEnv where
  estimated_gas : Except Unit Nat
  next_nonce : Nat
  seconds_elapsed : Nat → Nat
  func_result : Nat → Except Unit Nat
  receipt_of : Nat → Nat → Option RawReceipt

/-- One call of `self._func(nonce, gas, gas_price)`: the broadcast attempt
parameters recorded in submission order. -/
structure Attempt where
  nonce : Nat
  gas : Nat
  gas_price : Option Int
deriving DecidableEq

/-- the mutable local state of the `while True` loop of `transact_async`:
`tx_hashes` and `gas_price_last`, plus the trace of broadcast attempts made
so far (every call of `_func`, successful or not). -/
structure LoopSt where
  tx_hashes : List Nat
  gas_price_last : Option Int
  attempts : List Attempt
deriving DecidableEq

/-- Initial loop state: `tx_hashes = []`, `gas_price_last = 0` (a Python
`int`, hence `some 0` as opposed to the absent price `none`). -/
def LoopSt.init : LoopSt :=
  ⟨[], some 0, []⟩

/-- Exceptions that can escape the loop body to the outer handler of
`transact_async`, tagged by origin. -/
inductive TxError where
  | estimationFailed
  | broadcastFailed
deriving DecidableEq

/-- Status of the poll loop after some iterations: still running, returned
(with a `Receipt` on success or `none` for a mined-but-unsuccessful
transaction), or terminated by a raised exception. -/
inductive LoopState where
  | running (st : LoopSt)
  | done (st : LoopSt) (result : Option Receipt)
  | failed (st : LoopSt) (e : TxError)
deriving DecidableEq

/-- Loop-variable snapshot carried by any `LoopState`. -/
def LoopState.stOf : LoopState → LoopSt
  | .running st => st
  | .done st _ => st
  | .failed st _ => st

/-- Embeds the receipt scan at the top of each loop iteration
(`src/keeper/api/__init__.py` lines 371-380): the first transaction hash, in
submission order, that has a mined receipt decides the outcome — the decoded
receipt if successful, `None` otherwise. -/
def checkReceipts (env : TxEnv) (i : Nat) : List Nat → Option (Option Receipt)
  | [] => none
  | tx_hash :: rest =>
    match env.receipt_of i tx_hash with
    | some raw =>
      let receipt := mkReceipt raw
      some (if receipt.successful then some receipt else none)
    | none => checkReceipts env i rest

/-- Embeds one iteration of the `while True` loop of `transact_async`
(`src/keeper/api/__init__.py` lines 368-403): receipt scan; then broadcast
when no transaction has been sent yet or the freshly computed gas price
differs from `gas_price_last`; `gas_price_last` is updated before the
broadcast is attempted; a failed broadcast raises when `tx_hashes` is still
empty and is swallowed otherwise. -/
def loopBody (env : TxEnv) (nonce gas : Nat) (pricer : Nat → Option Int)
    (i : Nat) (st : LoopSt) : LoopState :=
  match checkReceipts env i st.tx_hashes with
  | some result => .done st result
  | none =>
    let gas_price_value := pricer (env.seconds_elapsed i)
    if st.tx_hashes = [] ∨ gas_price_value ≠ st.gas_price_last then
      let st1 : LoopSt :=
        { tx_hashes := st.tx_hashes
          gas_price_last := gas_price_value
          attempts := st.attempts ++ [⟨nonce, gas, gas_price_value⟩] }
      match env.func_result i with
      | .ok tx_hash => .running { st1 with tx_hashes := st1.tx_hashes ++ [tx_hash] }
      | .error _ =>
        if st.tx_hashes = [] then .failed st1 .broadcastFailed
        else .running st1
    else
      .running st

/-- State of the poll loop at the start of iteration `i`, obtained by
iterating `loopBody` from `LoopSt.init`; terminal states are absorbing. -/
def loopStateAt (env : TxEnv) (nonce gas : Nat) (pricer : Nat → Option Int) :
    Nat → LoopState
  | 0 => .running LoopSt.init
  | i + 1 =>
    match loopStateAt env nonce gas pricer i with
    | .running st => loopBody env nonce gas pricer i st
    | t => t

/-- Gas pricing function used by `transact_async`: the `gas_price` keyword
argument if given, else `DefaultGasPrice`. -/
def pricerOf (opts : TxOpts) : Nat → Option Int :=
  match opts.gas_price with
  | some gas_price => gas_price
  | none => DefaultGasPrice.get_gas_price

/-- Embeds the body of the outer `try` of `transact_async`
(`src/keeper/api/__init__.py` lines 345-403): estimate gas (propagating a
failure), then read the nonce, compute the gas limit, and run the poll loop.
Returns `none` while no terminal outcome is reached within `fuel`
iterations. -/
def transactAsyncInner (env : TxEnv) (opts : TxOpts) (fuel : Nat) :
    Option (Except TxError (Option Receipt)) :=
  match env.estimated_gas with
  | .error _ => some (.error .estimationFailed)
  | .ok gas_estimate =>
    let nonce := env.next_nonce
    let gas := Transact.gasFor opts gas_estimate
    match loopStateAt env nonce gas (pricerOf opts) fuel with
    | .running _ => none
    | .done _ result => some (.ok result)
    | .failed _ e => some (.error e)

/-- Embeds `Transact.transact_async` as observed by the caller
(`src/keeper/api/__init__.py` lines 344-406): the bare `except:` wrapping the
whole body catches every exception — estimation failure and first-broadcast
failure included — logs it and returns `None`.  The outer `none` means the
loop is still running after `fuel` iterations. -/
def transact_async (env : TxEnv) (opts : TxOpts) (fuel : Nat) :
    Option (Option Receipt) :=
  match transactAsyncInner env opts fuel with
  | none => none
  | some (.ok result) => some result
  | some (.error _) => some none

/-- Observable side effects of one `transact_async` run: how many times the
gas estimator and `next_nonce` were consulted, and the broadcast attempts
made. -/
structure TxTrace where
  estimate_calls : Nat
  nonce_calls : Nat
  attempts : List Attempt
deriving DecidableEq

/-- Side-effect trace of `transact_async`: `estimated_gas` is always called
first; `next_nonce` is consulted only when estimation succeeded; attempts
are those recorded by the poll loop within `fuel` iterations. -/
def transactAsyncTrace (env : TxEnv) (opts : TxOpts) (fuel : Nat) : TxTrace :=
  match env.estimated_gas with
  | .error _ => ⟨1, 0, []⟩
  | .ok gas_estimate =>
    ⟨1, 1, (loopStateAt env env.next_nonce (Transact.gasFor opts gas_estimate)
        (pricerOf opts) fuel).stOf.attempts⟩

/-- Fixed-point scale of the Wad type: 18 decimal places. -/
def WAD : Nat := 10 ^ 18

/-- Modelled from the spec: `keeper/api/numeric.py` is absent from `src/`.
Per §3 of the specification, `Wad` is a fixed-point decimal with 18 decimal
places backed by an integer, with arithmetic done as exact integer
arithmetic scaled by `10^18`.  Market amounts are nonnegative, so the
backing integer is embedded as `Nat`. -/
structure Wad where
  value : Nat
deriving DecidableEq

/-- Modelled from the spec: `Wad` division as exact integer arithmetic
scaled by `10^18`, i.e. the quotient truncated to 18 decimal places. -/
def Wad.div (a b : Wad) : Wad :=
  ⟨a.value * WAD / b.value⟩

/-- Embeds `OfferInfo` of `src/keeper/api/oasis.py`.  Token and owner
addresses are opaque naturals (an `Address` is value-compared on its
normalized form, which the position algorithm only tests for equality). -/
structure OfferInfo where
  offer_id : Nat
  sell_how_much : Wad
  sell_which_token : Nat
  buy_how_much : Wad
  buy_which_token : Nat
  owner : Nat
  timestamp : Nat
deriving DecidableEq

/-- Price ratio of an offer as computed by `MatchingMarket.position`:
the Wad fixed-point quotient `sell_how_much / buy_how_much`. -/
def offerPriceKey (o : OfferInfo) : Nat :=
  (Wad.div o.sell_how_much o.buy_how_much).value

/-- Filter predicate of `MatchingMarket.position`
(`src/keeper/api/oasis.py` lines 453-455): matching token pair and a Wad
quotient `sell/buy` at least the candidate's Wad quotient. -/
def offerEligible (have_token : Nat) (have_amount : Wad) (want_token : Nat)
    (want_amount : Wad) (o : OfferInfo) : Bool :=
  o.sell_which_token == have_token && o.buy_which_token == want_token &&
    decide ((Wad.div have_amount want_amount).value ≤ offerPriceKey o)

/-- Embeds `MatchingMarket.position` (`src/keeper/api/oasis.py` lines
424-458): filter the active offers, sort them (stably, as Python `sorted`)
by the Wad price quotient, and return the id of the first offer of the
sorted list, or `0` when no offer qualifies. -/
def MatchingMarket.position (have_token : Nat) (have_amount : Wad)
    (want_token : Nat) (want_amount : Wad)
    (active_offers : List OfferInfo) : Nat :=
  let offers := active_offers.filter
    (offerEligible have_token have_amount want_token want_amount)
  let sorted_offers := offers.mergeSort
    (fun a b => decide (offerPriceKey a ≤ offerPriceKey b))
  match sorted_offers with
  | [] => 0
  | o :: _ => o.offer_id

/-- Claim-side definition, following the words of spec §4.4 for comparison
with `MatchingMarket.position`: eligibility and ordering of offers by exact
rational comparison of `sell_amount/buy_amount` (cross-multiplication), not
by the truncating fixed-point quotient. -/
def positionRationalSpec (have_token : Nat) (have_amount : Wad)
    (want_token : Nat) (want_amount : Wad)
    (active_offers : List OfferInfo) : Nat :=
  let offers := active_offers.filter fun o =>
    o.sell_which_token == have_token && o.buy_which_token == want_token &&
      decide (have_amount.value * o.buy_how_much.value ≤
        o.sell_how_much.value * want_amount.value)
  let sorted_offers := offers.mergeSort fun a b =>
    decide (a.sell_how_much.value * b.buy_how_much.value ≤
      b.sell_how_much.value * a.buy_how_much.value)
  match sorted_offers with
  | [] => 0
  | o :: _ => o.offer_id

/-- First element of a list attaining the minimal key; `none` on the empty
list.  Ties are resolved in favour of the earlier element. -/
def firstMinBy {α : Type} (key : α → Nat) : List α → Option α
  | [] => none
  | a :: rest =>
    match firstMinBy key rest with
    | none => some a
    | some b => if key a ≤ key b then some a else some b

/-- Row of the on-chain `offers` storage array as read by
`SimpleMarket.get_offer`: `array[0]`-`array[6]`, with `array[5]` the
active flag. -/
structure OffersRow where
  sell_how_much : Nat
  sell_which_token : Nat
  buy_how_much : Nat
  buy_which_token : Nat
  owner : Nat
  active : Bool
  timestamp : Nat
deriving DecidableEq

/-- Mutable state of a `SimpleMarket` instance relevant to `get_offer`:
the `_none_offers` cache of ids confirmed absent. -/
structure MarketSt where
  none_offers : List Nat
deriving DecidableEq

/-- Outcome of one `get_offer` call: the returned offer (or `none`), the
market state afterwards, and how many contract storage reads the call
issued. -/
structure GetOfferResult where
  result : Option OfferInfo
  state : MarketSt
  storage_reads : Nat
deriving DecidableEq

/-- Embeds `SimpleMarket.get_offer` (`src/keeper/api/oasis.py` lines
187-213): a cached-absent id returns `None` with no storage read; otherwise
the `offers` row is read, an inactive row adds the id to `_none_offers` and
returns `None`, an active row is decoded into an `OfferInfo`.  The chain
storage is passed as a snapshot function for this call. -/
def SimpleMarket.get_offer (offers : Nat → OffersRow) (st : MarketSt)
    (offer_id : Nat) : GetOfferResult :=
  if offer_id ∈ st.none_offers then
    ⟨none, st, 0⟩
  else
    let array := offers offer_id
    if array.active ≠ true then
      ⟨none, ⟨st.none_offers ++ [offer_id]⟩, 1⟩
    else
      ⟨some ⟨offer_id, ⟨array.sell_how_much⟩, array.sell_which_token,
          ⟨array.buy_how_much⟩, array.buy_which_token, array.owner,
          array.timestamp⟩, st, 1⟩

/-- Runs a sequence of `get_offer` calls, each against its own chain
snapshot, threading the market state; returns the per-call results paired
with their storage-read counts, and the final state. -/
def runGetOffers (st : MarketSt) :
    List ((Nat → OffersRow) × Nat) →
      List (Option OfferInfo × Nat) × MarketSt
  | [] => ([], st)
  | (offers, offer_id) :: rest =>
    let r := SimpleMarket.get_offer offers st offer_id
    let toFollow := runGetOffers r.state rest
    ((r.result, r.storage_reads) :: toFollow.1, toFollow.2)

/-- Gas price of the most recent broadcast attempt, if any. -/
def lastAttemptPrice (attempts : List Attempt) : Option (Option Int) :=
  attempts.getLast?.map Attempt.gas_price

/-- No keyword arguments passed to `transact_async`. -/
def optsNone : TxOpts := ⟨none, none, none⟩

/-- Only an explicit `gas` keyword argument. -/
def optsGasOnly : TxOpts := ⟨some 12345, none, none⟩

/-- Only a `gas_buffer` keyword argument. -/
def optsBufOnly : TxOpts := ⟨none, some 7000, none⟩

/-- Environment whose gas estimation fails (the simulated call reverts). -/
def envEstFail : TxEnv := ⟨.error (), 5, fun _ => 0, fun _ => .ok 0, fun _ _ => none⟩

/-- Environment where estimation succeeds but every broadcast is rejected. -/
def envBcastFail : TxEnv := ⟨.ok 21000, 5, fun i => i, fun _ => .error (), fun _ _ => none⟩

/-- Environment where broadcasting succeeds and no receipt ever appears. -/
def envPollOk : TxEnv := ⟨.ok 21000, 5, fun i => i, fun _ => .ok 100, fun _ _ => none⟩

/-- Environment where the transaction broadcast at iteration 0 is mined with
an empty log list, visible from iteration 1 on. -/
def envMinedNoLogs : TxEnv :=
  ⟨.ok 21000, 5, fun i => i, fun _ => .ok 100,
   fun i _ => if 1 ≤ i then some ⟨some []⟩ else none⟩

/-- Gas pricing function that changes every second. -/
def priceStep : Nat → Option Int := fun s => some s

/-- Loop state after one successful broadcast at price `some 0`. -/
def stOneAttempt : LoopSt := ⟨[100], some 0, [⟨5, 9, some 0⟩]⟩

/-- Offer whose Wad price quotient equals the candidate quotient of the C4
counterexample while its exact rational price is strictly worse. -/
def exOffer : OfferInfo := ⟨1, ⟨333333333333333333⟩, 0, ⟨WAD⟩, 1, 7, 0⟩

/-- Chain storage where every offer row is inactive. -/
def chainInactive : Nat → OffersRow := fun _ => ⟨10, 0, 20, 1, 9, false, 0⟩

section Lemmas

/-- Every attempt recorded by one execution of the loop body is either an
attempt already recorded or a fresh attempt at the loop's nonce, gas limit
and the price computed at this iteration. -/
theorem loopBody_attempts_sub (env : TxEnv) (nonce gas : Nat)
    (pricer : Nat → Option Int) (i : Nat) (st : LoopSt) :
    ∀ a ∈ (loopBody env nonce gas pricer i st).stOf.attempts,
      a ∈ st.attempts ∨ a = ⟨nonce, gas, pricer (env.seconds_elapsed i)⟩ := by
  intro a ha
  unfold loopBody at ha
  cases hcr : checkReceipts env i st.tx_hashes with
  | some result => simp only [hcr, LoopState.stOf] at ha; exact Or.inl ha
  | none =>
    simp only [hcr] at ha
    by_cases hc : st.tx_hashes = [] ∨
        pricer (env.seconds_elapsed i) ≠ st.gas_price_last
    · rw [if_pos hc] at ha
      cases hf : env.func_result i with
      | ok tx_hash =>
        simp only [hf, LoopState.stOf, List.mem_append, List.mem_singleton] at ha
        exact ha
      | error e =>
        simp only [hf] at ha
        by_cases htx : st.tx_hashes = []
        · rw [if_pos htx] at ha
          simp only [LoopState.stOf, List.mem_append, List.mem_singleton] at ha
          exact ha
        · rw [if_neg htx] at ha
          simp only [LoopState.stOf, List.mem_append, List.mem_singleton] at ha
          exact ha
    · rw [if_neg hc] at ha
      exact Or.inl ha

/-- Every attempt recorded by the loop within any number of iterations
carries the nonce and gas limit fixed before the loop started. -/
theorem loop_attempts_fixed (env : TxEnv) (nonce gas : Nat)
    (pricer : Nat → Option Int) :
    ∀ (i : Nat), ∀ a ∈ (loopStateAt env nonce gas pricer i).stOf.attempts,
      a.nonce = nonce ∧ a.gas = gas := by
  intro i
  induction i with
  | zero =>
    intro a ha
    simp [loopStateAt, LoopSt.init, LoopState.stOf] at ha
  | succ i ih =>
    intro a ha
    rw [loopStateAt] at ha
    cases hprev : loopStateAt env nonce gas pricer i with
    | running st =>
      rw [hprev] at ha
      rcases loopBody_attempts_sub env nonce gas pricer i st a ha with hmem | heq
      · exact ih a (by rw [hprev]; exact hmem)
      · subst heq; exact ⟨rfl, rfl⟩
    | done st result =>
      rw [hprev] at ha
      exact ih a (by rw [hprev]; exact ha)
    | failed st e =>
      rw [hprev] at ha
      exact ih a (by rw [hprev]; exact ha)

/-- Invariant of reachable running loop states: with no attempt yet the
state is the initial one, and with at least one attempt the transaction list
is nonempty and `gas_price_last` is exactly the price of the most recent
attempt. -/
theorem loop_running_inv (env : TxEnv) (nonce gas : Nat)
    (pricer : Nat → Option Int) :
    ∀ (i : Nat) (st : LoopSt), loopStateAt env nonce gas pricer i = .running st →
      (st.attempts = [] → st = LoopSt.init) ∧
      (st.attempts ≠ [] → st.tx_hashes ≠ [] ∧
        lastAttemptPrice st.attempts = some st.gas_price_last) := by
  intro i
  induction i with
  | zero =>
    intro st hst
    simp only [loopStateAt, LoopState.running.injEq] at hst
    subst hst
    exact ⟨fun _ => rfl, fun h => absurd rfl h⟩
  | succ i ih =>
    intro st' hst'
    rw [loopStateAt] at hst'
    cases hprev : loopStateAt env nonce gas pricer i with
    | done st result => rw [hprev] at hst'; exact absurd hst' (by simp)
    | failed st e => rw [hprev] at hst'; exact absurd hst' (by simp)
    | running st =>
      rw [hprev] at hst'
      have hinv := ih st hprev
      unfold loopBody at hst'
      cases hcr : checkReceipts env i st.tx_hashes with
      | some result => simp only [hcr] at hst'; exact absurd hst' (by simp)
      | none =>
        simp only [hcr] at hst'
        by_cases hc : st.tx_hashes = [] ∨
            pricer (env.seconds_elapsed i) ≠ st.gas_price_last
        · rw [if_pos hc] at hst'
          cases hf : env.func_result i with
          | ok tx_hash =>
            simp only [hf, LoopState.running.injEq] at hst'
            subst hst'
            refine ⟨fun h => absurd h (by simp), fun _ => ⟨by simp, ?_⟩⟩
            simp [lastAttemptPrice, List.getLast?_concat]
          | error e =>
            simp only [hf] at hst'
            by_cases htx : st.tx_hashes = []
            · rw [if_pos htx] at hst'; exact absurd hst' (by simp)
            · rw [if_neg htx] at hst'
              simp only [LoopState.running.injEq] at hst'
              subst hst'
              refine ⟨fun h => absurd h (by simp), fun _ => ⟨htx, ?_⟩⟩
              simp [lastAttemptPrice, List.getLast?_concat]
        · rw [if_neg hc] at hst'
          simp only [LoopState.running.injEq] at hst'
          subst hst'
          push_neg at hc
          exact ⟨fun h => hinv.1 h, fun h => ⟨hc.1, (hinv.2 h).2⟩⟩

end Lemmas

/-- C1: when gas estimation fails, `transact_async` fails immediately with
the absent-receipt outcome, `next_nonce` is never consulted (the nonce
counter is untouched) and no broadcast is attempted, at every fuel. -/
theorem estimation_failure_consumes_no_nonce (env : TxEnv) (opts : TxOpts)
    (fuel : Nat) (h : env.estimated_gas = .error ()) :
    transactAsyncTrace env opts fuel = ⟨1, 0, []⟩ ∧
    transact_async env opts fuel = some none := by
  constructor
  · simp [transactAsyncTrace, h]
  · simp [transact_async, transactAsyncInner, h]

/-- C1 witness: the theorem applied to a concrete failing environment. -/
theorem estimation_failure_consumes_no_nonce_witness :
    envEstFail.estimated_gas = .error () ∧
    (transactAsyncTrace envEstFail optsNone 3 = ⟨1, 0, []⟩ ∧
      transact_async envEstFail optsNone 3 = some none) :=
  ⟨rfl, estimation_failure_consumes_no_nonce envEstFail optsNone 3 rfl⟩

/-- C2 counterexample: the claim says estimation failure and a failure of
the very first broadcast propagate to the caller as raised errors.  On the
code, the bare `except:` wrapping the whole of `transact_async` catches both
and the caller receives the terminal absent-receipt result `None`: in both
concrete runs below the inner computation raises, yet the caller observes
`some none`, not an error. -/
theorem transact_async_swallows_first_errors :
    (transactAsyncInner envEstFail optsNone 0 = some (.error .estimationFailed) ∧
      transact_async envEstFail optsNone 0 = some none) ∧
    (transactAsyncInner envBcastFail optsNone 1 = some (.error .broadcastFailed) ∧
      transact_async envBcastFail optsNone 1 = some none) :=
  ⟨⟨rfl, rfl⟩, ⟨rfl, rfl⟩⟩

/-- C2 amended: every error in the submission body — estimation failure and
first-attempt broadcast failure included — is caught by the outer handler
and surfaces as the terminal absent-receipt result `None`; no error
propagates to the caller.  A broadcast failure after at least one attempt
was already broadcast does not even terminate the loop: the iteration ends
in a running state and polling continues. -/
theorem transact_async_never_raises (env : TxEnv) (opts : TxOpts) (fuel : Nat) :
    (∀ e, transactAsyncInner env opts fuel = some (.error e) →
      transact_async env opts fuel = some none) ∧
    (∀ nonce gas pricer i st, st.tx_hashes ≠ [] →
      checkReceipts env i st.tx_hashes = none →
      ∃ st1, loopBody env nonce gas pricer i st = .running st1) := by
  constructor
  · intro e h
    simp [transact_async, h]
  · intro nonce gas pricer i st htx hnor
    unfold loopBody
    simp only [hnor]
    by_cases hc : st.tx_hashes = [] ∨
        pricer (env.seconds_elapsed i) ≠ st.gas_price_last
    · rw [if_pos hc]
      cases hf : env.func_result i with
      | ok tx_hash => exact ⟨_, rfl⟩
      | error e => rw [if_neg htx]; exact ⟨_, rfl⟩
    · rw [if_neg hc]
      exact ⟨st, rfl⟩

/-- C2 amended witness: the amended theorem applied to concrete runs. -/
theorem transact_async_never_raises_witness :
    transact_async envEstFail optsNone 0 = some none ∧
    (∃ st1, loopBody envBcastFail 5 9 priceStep 1 stOneAttempt = .running st1) :=
  ⟨(transact_async_never_raises envEstFail optsNone 0).1 .estimationFailed rfl,
   (transact_async_never_raises envBcastFail optsNone 1).2 5 9 priceStep 1
     stOneAttempt (by simp [stOneAttempt]) rfl⟩

/-- C3: in every live loop iteration that finds no receipt, a broadcast
attempt is made exactly when no attempt has been made yet or the freshly
computed price differs from the price of the most recent attempt; when the
price is unchanged since the last attempt the iteration leaves the state
untouched, and every attempt ever recorded reuses the loop's fixed nonce
and gas limit. -/
theorem broadcast_exactly_on_price_change (env : TxEnv) (nonce gas : Nat)
    (pricer : Nat → Option Int) (i : Nat) (st : LoopSt)
    (hrun : loopStateAt env nonce gas pricer i = .running st)
    (hnor : checkReceipts env i st.tx_hashes = none) :
    ((loopBody env nonce gas pricer i st).stOf.attempts =
        st.attempts ++ [⟨nonce, gas, pricer (env.seconds_elapsed i)⟩] ↔
      (st.attempts = [] ∨
        lastAttemptPrice st.attempts ≠ some (pricer (env.seconds_elapsed i)))) ∧
    ((st.attempts ≠ [] ∧
        lastAttemptPrice st.attempts = some (pricer (env.seconds_elapsed i))) →
      loopBody env nonce gas pricer i st = .running st) ∧
    (∀ a ∈ (loopBody env nonce gas pricer i st).stOf.attempts,
      a.nonce = nonce ∧ a.gas = gas) := by
  have hinv := loop_running_inv env nonce gas pricer i st hrun
  have hbodyA : (st.tx_hashes = [] ∨
      pricer (env.seconds_elapsed i) ≠ st.gas_price_last) →
      (loopBody env nonce gas pricer i st).stOf.attempts =
        st.attempts ++ [⟨nonce, gas, pricer (env.seconds_elapsed i)⟩] := by
    intro hc
    unfold loopBody
    simp only [hnor]
    rw [if_pos hc]
    cases hf : env.func_result i with
    | ok tx_hash => simp [LoopState.stOf]
    | error e =>
      by_cases htx : st.tx_hashes = []
      · rw [if_pos htx]; simp [LoopState.stOf]
      · rw [if_neg htx]; simp [LoopState.stOf]
  have hbodyB : ¬ (st.tx_hashes = [] ∨
      pricer (env.seconds_elapsed i) ≠ st.gas_price_last) →
      loopBody env nonce gas pricer i st = .running st := by
    intro hc
    unfold loopBody
    simp only [hnor]
    rw [if_neg hc]
  have hiff : (st.tx_hashes = [] ∨
      pricer (env.seconds_elapsed i) ≠ st.gas_price_last) ↔
      (st.attempts = [] ∨
        lastAttemptPrice st.attempts ≠ some (pricer (env.seconds_elapsed i))) := by
    constructor
    · rintro (htx | hne)
      · by_cases hatt : st.attempts = []
        · exact Or.inl hatt
        · exact absurd htx (hinv.2 hatt).1
      · by_cases hatt : st.attempts = []
        · exact Or.inl hatt
        · refine Or.inr ?_
          rw [(hinv.2 hatt).2]
          intro hcontra
          exact hne (Option.some.inj hcontra).symm
    · rintro (hatt | hne)
      · have hini := hinv.1 hatt
        exact Or.inl (by rw [hini]; rfl)
      · by_cases hatt : st.attempts = []
        · have hini := hinv.1 hatt
          exact Or.inl (by rw [hini]; rfl)
        · refine Or.inr ?_
          have hlast := (hinv.2 hatt).2
          rw [hlast] at hne
          intro hcontra
          exact hne (by rw [hcontra])
  refine ⟨?_, ?_, ?_⟩
  · constructor
    · intro hext
      by_cases hc : st.tx_hashes = [] ∨
          pricer (env.seconds_elapsed i) ≠ st.gas_price_last
      · exact hiff.mp hc
      · exfalso
        rw [hbodyB hc] at hext
        have hlen := congrArg List.length hext
        simp only [LoopState.stOf, List.length_append, List.length_singleton] at hlen
        omega
    · intro hspec
      exact hbodyA (hiff.mpr hspec)
  · intro h
    apply hbodyB
    intro hc
    rcases hiff.mp hc with hatt | hne
    · exact h.1 hatt
    · exact hne h.2
  · intro a ha
    have hnext : loopStateAt env nonce gas pricer (i + 1) =
        loopBody env nonce gas pricer i st := by
      rw [loopStateAt, hrun]
    exact loop_attempts_fixed env nonce gas pricer (i + 1) a
      (by rw [hnext]; exact ha)

/-- C3 witness: after the first broadcast at price 0, a price change to 1 at
iteration 1 triggers a fresh attempt at the same nonce 5 and gas limit 9. -/
theorem broadcast_exactly_on_price_change_witness :
    loopStateAt envPollOk 5 9 priceStep 1 = .running stOneAttempt ∧
    (loopBody envPollOk 5 9 priceStep 1 stOneAttempt).stOf.attempts =
      stOneAttempt.attempts ++ [⟨5, 9, some 1⟩] :=
  ⟨rfl,
   ((broadcast_exactly_on_price_change envPollOk 5 9 priceStep 1 stOneAttempt
      rfl rfl).1).mpr (Or.inr (by decide))⟩

/-- C10: if a broadcast attempt raises after at least one attempt has been
broadcast, the iteration still records the freshly computed price in
`gas_price_last` (trace included) and keeps running with the same
transaction list; and in any iteration whose fresh price equals the recorded
`gas_price_last` no broadcast occurs at all — the failed attempt is never
retried at the same price. -/
theorem failed_broadcast_price_still_recorded (env : TxEnv) (nonce gas : Nat)
    (pricer : Nat → Option Int) (i : Nat) (st : LoopSt)
    (htx : st.tx_hashes ≠ [])
    (hnor : checkReceipts env i st.tx_hashes = none)
    (hne : pricer (env.seconds_elapsed i) ≠ st.gas_price_last)
    (hfail : env.func_result i = .error ()) :
    loopBody env nonce gas pricer i st = .running
      ⟨st.tx_hashes, pricer (env.seconds_elapsed i),
        st.attempts ++ [⟨nonce, gas, pricer (env.seconds_elapsed i)⟩]⟩ ∧
    (∀ (j : Nat) (st2 : LoopSt), st2.tx_hashes ≠ [] →
      checkReceipts env j st2.tx_hashes = none →
      pricer (env.seconds_elapsed j) = st2.gas_price_last →
      loopBody env nonce gas pricer j st2 = .running st2) := by
  constructor
  · unfold loopBody
    simp only [hnor]
    rw [if_pos (Or.inr hne)]
    simp only [hfail]
    rw [if_neg htx]
  · intro j st2 htx2 hnor2 heq
    unfold loopBody
    simp only [hnor2]
    rw [if_neg ?_]
    rintro (h | h)
    · exact htx2 h
    · exact h heq

/-- C10 witness: a rejected re-broadcast at price 1 leaves the state at the
failed price, and an iteration whose price matches the recorded one does
nothing. -/
theorem failed_broadcast_price_still_recorded_witness :
    loopBody envBcastFail 5 9 priceStep 1 stOneAttempt = .running
      ⟨[100], some 1, stOneAttempt.attempts ++ [⟨5, 9, some 1⟩]⟩ ∧
    loopBody envBcastFail 5 9 priceStep 2 ⟨[100], some 2, [⟨5, 9, some 1⟩]⟩ =
      .running ⟨[100], some 2, [⟨5, 9, some 1⟩]⟩ :=
  ⟨(failed_broadcast_price_still_recorded envBcastFail 5 9 priceStep 1
      stOneAttempt (by simp [stOneAttempt]) rfl (by decide) rfl).1,
   (failed_broadcast_price_still_recorded envBcastFail 5 9 priceStep 1
      stOneAttempt (by simp [stOneAttempt]) rfl (by decide) rfl).2 2
     ⟨[100], some 2, [⟨5, 9, some 1⟩]⟩ (by simp) rfl rfl⟩

/-- C5 counterexample: the claim says an explicit `gas` option makes
`transact_async` skip the gas-estimation call.  On the code, `estimated_gas`
is invoked unconditionally before the options are looked at: with an
explicit `gas` option the estimator is still consulted (one call recorded),
and its failure still aborts the whole submission. -/
theorem explicit_gas_does_not_skip_estimation :
    (transactAsyncTrace envEstFail optsGasOnly 4).estimate_calls = 1 ∧
    transact_async envEstFail optsGasOnly 4 = some none :=
  ⟨rfl, rfl⟩

/-- C5 amended: with an explicit `gas` option the explicit value is used as
the gas limit of every broadcast (the estimate is ignored in the limit
computation), but gas estimation is still performed exactly once first, and
an estimation failure still ends the submission with the absent-receipt
outcome and no broadcast. -/
theorem explicit_gas_used_but_estimation_runs (env : TxEnv) (opts : TxOpts)
    (fuel g : Nat) (hg : opts.gas = some g) :
    (transactAsyncTrace env opts fuel).estimate_calls = 1 ∧
    (∀ gas_estimate, Transact.gasFor opts gas_estimate = g) ∧
    (∀ a ∈ (transactAsyncTrace env opts fuel).attempts, a.gas = g) ∧
    (env.estimated_gas = .error () →
      transact_async env opts fuel = some none ∧
      (transactAsyncTrace env opts fuel).attempts = []) := by
  refine ⟨?_, ?_, ?_, ?_⟩
  · cases h : env.estimated_gas <;> simp [transactAsyncTrace, h]
  · intro gas_estimate
    simp [Transact.gasFor, hg]
  · intro a ha
    cases h : env.estimated_gas with
    | error e =>
      simp [transactAsyncTrace, h] at ha
    | ok ge =>
      simp only [transactAsyncTrace, h] at ha
      have hfix := loop_attempts_fixed env env.next_nonce
        (Transact.gasFor opts ge) (pricerOf opts) fuel a ha
      rw [hfix.2]
      simp [Transact.gasFor, hg]
  · intro h
    exact ⟨by simp [transact_async, transactAsyncInner, h],
           by simp [transactAsyncTrace, h]⟩

/-- C5 amended witness: the amended theorem applied to a failing estimator
with an explicit gas option of 12345. -/
theorem explicit_gas_used_but_estimation_runs_witness :
    optsGasOnly.gas = some 12345 ∧
    (transactAsyncTrace envEstFail optsGasOnly 2).estimate_calls = 1 ∧
    Transact.gasFor optsGasOnly 21000 = 12345 ∧
    transact_async envEstFail optsGasOnly 2 = some none :=
  ⟨rfl,
   (explicit_gas_used_but_estimation_runs envEstFail optsGasOnly 2 12345 rfl).1,
   (explicit_gas_used_but_estimation_runs envEstFail optsGasOnly 2 12345 rfl).2.1 21000,
   ((explicit_gas_used_but_estimation_runs envEstFail optsGasOnly 2 12345 rfl).2.2.2 rfl).1⟩

/-- C6: the gas limit equals the explicit `gas` option when given, else the
estimate plus the given `gas_buffer`, else the estimate plus the default
buffer of 100000; and every broadcast attempt of a run uses exactly this
limit computed from the run's estimate. -/
theorem gas_limit_formula (opts : TxOpts) (gas_estimate : Nat) :
    (∀ g, opts.gas = some g → Transact.gasFor opts gas_estimate = g) ∧
    (∀ b, opts.gas = none → opts.gas_buffer = some b →
      Transact.gasFor opts gas_estimate = gas_estimate + b) ∧
    (opts.gas = none → opts.gas_buffer = none →
      Transact.gasFor opts gas_estimate = gas_estimate + 100000) ∧
    (∀ (env : TxEnv) (fuel ge : Nat), env.estimated_gas = .ok ge →
      ∀ a ∈ (transactAsyncTrace env opts fuel).attempts,
        a.gas = Transact.gasFor opts ge) := by
  refine ⟨?_, ?_, ?_, ?_⟩
  · intro g hg
    simp [Transact.gasFor, hg]
  · intro b hg hb
    simp [Transact.gasFor, hg, hb]
  · intro hg hb
    simp [Transact.gasFor, hg, hb]
  · intro env fuel ge h a ha
    simp only [transactAsyncTrace, h] at ha
    exact (loop_attempts_fixed env env.next_nonce
      (Transact.gasFor opts ge) (pricerOf opts) fuel a ha).2

/-- C6 witness: the three cases of the gas-limit formula at the estimate
21000, and the attempt made by a concrete run using the default buffer. -/
theorem gas_limit_formula_witness :
    Transact.gasFor optsGasOnly 21000 = 12345 ∧
    Transact.gasFor optsBufOnly 21000 = 21000 + 7000 ∧
    Transact.gasFor optsNone 21000 = 21000 + 100000 ∧
    (⟨5, 121000, none⟩ : Attempt).gas = Transact.gasFor optsNone 21000 :=
  ⟨(gas_limit_formula optsGasOnly 21000).1 12345 rfl,
   (gas_limit_formula optsBufOnly 21000).2.1 7000 rfl rfl,
   (gas_limit_formula optsNone 21000).2.2.1 rfl rfl,
   (gas_limit_formula optsNone 21000).2.2.2 envPollOk 1 21000 rfl
     ⟨5, 121000, none⟩ (by decide)⟩

/-- C7: a decoded receipt is successful iff the raw log list is present and
nonempty; a mined transaction whose receipt is unsuccessful makes the loop
return the absent receipt, and that absent receipt is what the caller of
`transact_async` observes (no error). -/
theorem success_iff_logs_nonempty :
    (∀ raw : RawReceipt, (mkReceipt raw).successful = true ↔
      ∃ ls, raw.logs = some ls ∧ 0 < ls.length) ∧
    (∀ (env : TxEnv) (nonce gas : Nat) (pricer : Nat → Option Int) (i : Nat)
        (st : LoopSt) (tx_hash : Nat) (rest : List Nat) (raw : RawReceipt),
      st.tx_hashes = tx_hash :: rest →
      env.receipt_of i tx_hash = some raw →
      (mkReceipt raw).successful = false →
      loopBody env nonce gas pricer i st = .done st none) ∧
    (∀ (env : TxEnv) (opts : TxOpts) (fuel : Nat),
      transactAsyncInner env opts fuel = some (.ok none) →
      transact_async env opts fuel = some none) := by
  refine ⟨?_, ?_, ?_⟩
  · intro raw
    cases hl : raw.logs with
    | none => simp [mkReceipt, hl]
    | some ls => simp [mkReceipt, hl]
  · intro env nonce gas pricer i st tx_hash rest raw hst hrec hfailr
    have hcr : checkReceipts env i st.tx_hashes = some none := by
      rw [hst]
      unfold checkReceipts
      rw [hrec]
      simp [hfailr]
    unfold loopBody
    simp only [hcr]
  · intro env opts fuel h
    simp [transact_async, h]

/-- C7 witness: a single log makes a receipt successful; a mined receipt
with zero logs ends the loop with the absent receipt, and the caller of a
full run over such a chain observes `None`. -/
theorem success_iff_logs_nonempty_witness :
    (mkReceipt ⟨some [3]⟩).successful = true ∧
    loopBody envMinedNoLogs 5 9 priceStep 1 stOneAttempt = .done stOneAttempt none ∧
    transact_async envMinedNoLogs optsNone 2 = some none :=
  ⟨(success_iff_logs_nonempty.1 ⟨some [3]⟩).mpr ⟨[3], rfl, by decide⟩,
   success_iff_logs_nonempty.2.1 envMinedNoLogs 5 9 priceStep 1 stOneAttempt
     100 [] ⟨some []⟩ rfl rfl rfl,
   success_iff_logs_nonempty.2.2 envMinedNoLogs optsNone 2 rfl⟩

/-- Helper for C8: a call for a cached-absent id returns `None` without any
storage read and leaves the state unchanged. -/
theorem get_offer_cached (offers : Nat → OffersRow) (st : MarketSt)
    (offer_id : Nat) (h : offer_id ∈ st.none_offers) :
    SimpleMarket.get_offer offers st offer_id = ⟨none, st, 0⟩ := by
  simp [SimpleMarket.get_offer, h]

/-- Helper for C8: an absent result puts the id into the cache. -/
theorem get_offer_none_mem (offers : Nat → OffersRow) (st : MarketSt)
    (offer_id : Nat)
    (h : (SimpleMarket.get_offer offers st offer_id).result = none) :
    offer_id ∈ (SimpleMarket.get_offer offers st offer_id).state.none_offers := by
  by_cases hmem : offer_id ∈ st.none_offers
  · simp [SimpleMarket.get_offer, hmem]
  · by_cases hact : (offers offer_id).active ≠ true
    · simp [SimpleMarket.get_offer, hmem, hact]
    · simp [SimpleMarket.get_offer, hmem, hact] at h

/-- Helper for C8: the absent-id cache only ever grows. -/
theorem get_offer_monotone (offers : Nat → OffersRow) (st : MarketSt)
    (offer_id : Nat) :
    st.none_offers ⊆ (SimpleMarket.get_offer offers st offer_id).state.none_offers := by
  unfold SimpleMarket.get_offer
  by_cases hmem : offer_id ∈ st.none_offers
  · simp [hmem]
  · rw [if_neg hmem]
    by_cases hact : (offers offer_id).active ≠ true
    · rw [if_pos hact]
      exact fun x hx => List.mem_append_left _ hx
    · rw [if_neg hact]
      exact fun x hx => hx

/-- Helper for C8: along a run of `get_offer` calls starting with the id in
the absent cache, every call for that id returns `None` with zero storage
reads, and the cache keeps growing. -/
theorem runGetOffers_cached (offer_id : Nat) :
    ∀ (calls : List ((Nat → OffersRow) × Nat)) (st : MarketSt),
      offer_id ∈ st.none_offers →
      (∀ (k : Nat) (offers2 : Nat → OffersRow),
        calls[k]? = some (offers2, offer_id) →
        (runGetOffers st calls).1[k]? = some (none, 0)) ∧
      st.none_offers ⊆ (runGetOffers st calls).2.none_offers := by
  intro calls
  induction calls with
  | nil =>
    intro st hmem
    constructor
    · intro k offers2 hk
      simp at hk
    · simp [runGetOffers]
  | cons call rest ih =>
    intro st hmem
    obtain ⟨offers1, id1⟩ := call
    have hmono := get_offer_monotone offers1 st id1
    have hmem1 : offer_id ∈ (SimpleMarket.get_offer offers1 st id1).state.none_offers :=
      hmono hmem
    have ihr := ih (SimpleMarket.get_offer offers1 st id1).state hmem1
    constructor
    · intro k offers2 hk
      cases k with
      | zero =>
        simp only [List.getElem?_cons_zero, Option.some.injEq, Prod.mk.injEq] at hk
        obtain ⟨hk1, hk2⟩ := hk
        rw [hk2]
        simp [runGetOffers, get_offer_cached offers1 st offer_id hmem]
      | succ k =>
        simp only [List.getElem?_cons_succ] at hk
        simp only [runGetOffers, List.getElem?_cons_succ]
        exact ihr.1 k offers2 hk
    · exact fun x hx => ihr.2 (hmono hx)

/-- C8: once `get_offer` has returned absent for an id, every later
`get_offer` call for the same id — under arbitrary interleaved calls and
arbitrary chain snapshots — returns absent again with zero storage reads,
the absent cache only grows along the run, and a single `get_offer` call
never removes anything from the cache. -/
theorem sticky_absence (chain : Nat → OffersRow) (st : MarketSt)
    (offer_id : Nat)
    (h : (SimpleMarket.get_offer chain st offer_id).result = none) :
    ∀ calls : List ((Nat → OffersRow) × Nat),
      (∀ (k : Nat) (offers2 : Nat → OffersRow),
        calls[k]? = some (offers2, offer_id) →
        (runGetOffers (SimpleMarket.get_offer chain st offer_id).state calls).1[k]? =
          some (none, 0)) ∧
      ((SimpleMarket.get_offer chain st offer_id).state.none_offers ⊆
        (runGetOffers (SimpleMarket.get_offer chain st offer_id).state calls).2.none_offers) ∧
      (∀ (offers2 : Nat → OffersRow) (st2 : MarketSt) (id2 : Nat),
        st2.none_offers ⊆ (SimpleMarket.get_offer offers2 st2 id2).state.none_offers) := by
  intro calls
  have hcached := runGetOffers_cached offer_id calls
    (SimpleMarket.get_offer chain st offer_id).state
    (get_offer_none_mem chain st offer_id h)
  exact ⟨hcached.1, hcached.2, fun offers2 st2 id2 => get_offer_monotone offers2 st2 id2⟩

/-- C8 witness: against an all-inactive chain, offer 4 is read once, found
absent, and a repeated query answers from the cache with no storage read. -/
theorem sticky_absence_witness :
    (SimpleMarket.get_offer chainInactive ⟨[]⟩ 4).result = none ∧
    (runGetOffers (SimpleMarket.get_offer chainInactive ⟨[]⟩ 4).state
        [(chainInactive, 4)]).1[0]? = some (none, 0) :=
  ⟨rfl, (sticky_absence chainInactive ⟨[]⟩ 4 rfl [(chainInactive, 4)]).1 0
    chainInactive rfl⟩

/-- C9: a valid `IncreasingGasPrice` construction yields the price
`initial_price + increase_by * floor(t / every_secs)`, a monotonically
non-decreasing function of the elapsed time, and any non-positive step or
period makes the constructor fail with `InvalidConfig`. -/
theorem increasing_pricer_formula (initial_price increase_by every_secs : Int) :
    (0 < increase_by → 0 < every_secs →
      ∃ g, IncreasingGasPrice.make initial_price increase_by every_secs = .ok g ∧
        (∀ t : Nat, g.get_gas_price t =
          initial_price + increase_by * ((t / every_secs.toNat : Nat) : Int)) ∧
        (∀ t u : Nat, t ≤ u → g.get_gas_price t ≤ g.get_gas_price u)) ∧
    (increase_by ≤ 0 ∨ every_secs ≤ 0 →
      IncreasingGasPrice.make initial_price increase_by every_secs =
        .error .invalidConfig) := by
  constructor
  · intro hstep hper
    refine ⟨⟨initial_price, increase_by, every_secs⟩, ?_, ?_, ?_⟩
    · unfold IncreasingGasPrice.make
      rw [if_neg (by omega), if_neg (by omega)]
    · intro t
      unfold IncreasingGasPrice.get_gas_price
      have h1 : ((t / every_secs.toNat : Nat) : Int) =
          (t : Int) / ((every_secs.toNat : Nat) : Int) :=
        Int.ofNat_ediv t every_secs.toNat
      rw [h1, Int.toNat_of_nonneg (le_of_lt hper)]
    · intro t u htu
      unfold IncreasingGasPrice.get_gas_price
      have hdiv : (t : Int) / every_secs ≤ (u : Int) / every_secs :=
        Int.ediv_le_ediv hper (by exact_mod_cast htu)
      exact add_le_add_left (mul_le_mul_of_nonneg_left hdiv (le_of_lt hstep)) _
  · intro h
    unfold IncreasingGasPrice.make
    rcases h with h | h
    · rw [if_pos h]
    · by_cases h2 : increase_by ≤ 0
      · rw [if_pos h2]
      · rw [if_neg h2, if_pos h]

/-- C9 witness: the parameters of the repository's own gas test
(`IncreasingGasPrice(1000, 100, 60)`), and failing constructions. -/
theorem increasing_pricer_formula_witness :
    (∃ g, IncreasingGasPrice.make 1000 100 60 = .ok g ∧
      (∀ t : Nat, g.get_gas_price t = 1000 + 100 * ((t / 60 : Nat) : Int)) ∧
      (∀ t u : Nat, t ≤ u → g.get_gas_price t ≤ g.get_gas_price u)) ∧
    IncreasingGasPrice.make 1000 0 60 = .error .invalidConfig ∧
    IncreasingGasPrice.make 1000 100 (-1) = .error .invalidConfig :=
  ⟨(increasing_pricer_formula 1000 100 60).1 (by decide) (by decide),
   (increasing_pricer_formula 1000 0 60).2 (Or.inl (by decide)),
   (increasing_pricer_formula 1000 100 (-1)).2 (Or.inr (by decide))⟩

/-- Helper for C4: the key-based comparison used by `position` is
transitive. -/
theorem keyLe_trans {α : Type} (key : α → Nat) (a b c : α)
    (h1 : decide (key a ≤ key b) = true) (h2 : decide (key b ≤ key c) = true) :
    decide (key a ≤ key c) = true := by
  simp only [decide_eq_true_eq] at h1 h2 ⊢
  omega

/-- Helper for C4: the key-based comparison used by `position` is total. -/
theorem keyLe_total {α : Type} (key : α → Nat) (a b : α) :
    (decide (key a ≤ key b) || decide (key b ≤ key a)) = true := by
  simpa using Nat.le_total (key a) (key b)

/-- Helper for C4: `firstMinBy` is `none` exactly on the empty list. -/
theorem firstMinBy_eq_none {α : Type} (key : α → Nat) (l : List α) :
    firstMinBy key l = none ↔ l = [] := by
  cases l with
  | nil => simp [firstMinBy]
  | cons a rest =>
    constructor
    · intro h
      exfalso
      simp only [firstMinBy] at h
      cases hfm : firstMinBy key rest with
      | none => rw [hfm] at h; simp at h
      | some b =>
        simp only [hfm] at h
        by_cases hle : key a ≤ key b
        · rw [if_pos hle] at h; simp at h
        · rw [if_neg hle] at h; simp at h
    · intro h
      simp at h

/-- Helper for C4: an element returned by `firstMinBy` splits the list into
a strictly-greater prefix and a suffix, and has a key minimal over the whole
list. -/
theorem firstMinBy_eq_some {α : Type} (key : α → Nat) :
    ∀ (l : List α) (o : α), firstMinBy key l = some o →
      ∃ pre post, l = pre ++ o :: post ∧
        (∀ x ∈ pre, key o < key x) ∧ (∀ x ∈ l, key o ≤ key x) := by
  intro l
  induction l with
  | nil => intro o h; simp [firstMinBy] at h
  | cons a rest ih =>
    intro o h
    simp only [firstMinBy] at h
    cases hfm : firstMinBy key rest with
    | none =>
      rw [hfm] at h
      simp only [Option.some.injEq] at h
      subst h
      have hrest : rest = [] := (firstMinBy_eq_none key rest).mp hfm
      subst hrest
      exact ⟨[], [], rfl, by simp, by simp⟩
    | some b =>
      simp only [hfm] at h
      obtain ⟨pre, post, hsplit, hpre, hmin⟩ := ih b hfm
      by_cases hle : key a ≤ key b
      · rw [if_pos hle] at h
        simp only [Option.some.injEq] at h
        subst h
        refine ⟨[], rest, rfl, by simp, ?_⟩
        intro x hx
        rcases List.mem_cons.mp hx with hx | hx
        · subst hx; exact le_refl _
        · exact le_trans hle (hmin x hx)
      · rw [if_neg hle] at h
        simp only [Option.some.injEq] at h
        subst h
        refine ⟨a :: pre, post, by simp [hsplit], ?_, ?_⟩
        · intro x hx
          rcases List.mem_cons.mp hx with hx | hx
          · subst hx; omega
          · exact hpre x hx
        · intro x hx
          rcases List.mem_cons.mp hx with hx | hx
          · subst hx; omega
          · exact hmin x hx

/-- Helper for C4: the head of the stable merge sort by a natural key is the
first element of the input attaining the minimal key — exactly
`sorted(...)[0]` of Python. -/
theorem head_mergeSort_firstMinBy {α : Type} (key : α → Nat) (l : List α) :
    (l.mergeSort fun a b => decide (key a ≤ key b)).head? = firstMinBy key l := by
  induction l with
  | nil => simp [firstMinBy]
  | cons a l ih =>
    obtain ⟨l₁, l₂, h₁, h₂, h₃⟩ :=
      @List.mergeSort_cons α (fun a b => decide (key a ≤ key b))
        (keyLe_trans key) (keyLe_total key) a l
    rw [h₁]
    rw [h₂] at ih
    cases hl : l₁ with
    | nil =>
      subst hl
      simp only [List.nil_append, List.head?_cons] at ih ⊢
      simp only [firstMinBy]
      cases hfm : firstMinBy key l with
      | none => rfl
      | some b =>
        rw [hfm] at ih
        have hsorted := @List.sorted_mergeSort α
          (fun x y => decide (key x ≤ key y))
          (keyLe_trans key) (keyLe_total key) (a :: l)
        rw [h₁] at hsorted
        simp only [List.nil_append] at hsorted
        have hb_mem : b ∈ l₂ := by
          cases hl₂ : l₂ with
          | nil => rw [hl₂] at ih; simp at ih
          | cons c tl =>
            rw [hl₂] at ih
            simp only [List.head?_cons, Option.some.injEq] at ih
            rw [← ih]
            exact List.mem_cons_self c tl
        have hab := (List.pairwise_cons.mp hsorted).1 b hb_mem
        simp only [decide_eq_true_eq] at hab
        simp [hab]
    | cons c l₁tl =>
      subst hl
      simp only [List.cons_append, List.head?_cons] at ih ⊢
      simp only [firstMinBy]
      rw [← ih]
      have hac := h₃ c (List.mem_cons_self c l₁tl)
      simp only [Bool.not_eq_true', decide_eq_false_iff_not, Nat.not_le] at hac
      have hnle : ¬ key a ≤ key c := by omega
      simp [hnle]

/-- Helper for C4: `position` returns the id of the first minimal-key
eligible offer, `0` when none is eligible. -/
theorem position_eq_firstMinBy (have_token want_token : Nat)
    (have_amount want_amount : Wad) (active_offers : List OfferInfo) :
    MatchingMarket.position have_token have_amount want_token want_amount
        active_offers =
      match firstMinBy offerPriceKey (active_offers.filter
          (offerEligible have_token have_amount want_token want_amount)) with
      | none => 0
      | some o => o.offer_id := by
  have hhead := head_mergeSort_firstMinBy offerPriceKey (active_offers.filter
    (offerEligible have_token have_amount want_token want_amount))
  simp only [MatchingMarket.position]
  cases hms : (active_offers.filter
      (offerEligible have_token have_amount want_token want_amount)).mergeSort
        (fun a b => decide (offerPriceKey a ≤ offerPriceKey b)) with
  | nil =>
    rw [hms] at hhead
    simp only [List.head?_nil] at hhead
    rw [← hhead]
  | cons o tl =>
    rw [hms] at hhead
    simp only [List.head?_cons] at hhead
    rw [← hhead]

/-- C4 counterexample: the claim says `position` compares prices by exact
rational comparison.  Candidate `1/3` and an offer priced
`333333333333333333/10^18` have the same 18-decimal fixed-point quotient,
so the code accepts the offer and returns its id `1`, although its exact
rational price is strictly below the candidate's (`1 * 10^18 >
333333333333333333 * 3`): exact rational filtering would return `0`. -/
theorem position_not_exact_rational :
    MatchingMarket.position 0 ⟨1⟩ 1 ⟨3⟩ [exOffer] = 1 ∧
    positionRationalSpec 0 ⟨1⟩ 1 ⟨3⟩ [exOffer] = 0 ∧
    (⟨1⟩ : Wad).value * exOffer.buy_how_much.value >
      exOffer.sell_how_much.value * (⟨3⟩ : Wad).value := by
  refine ⟨?_, ?_, ?_⟩
  · simp [MatchingMarket.position, offerEligible, offerPriceKey, Wad.div,
      WAD, exOffer]
  · simp [positionRationalSpec, exOffer, WAD]
  · norm_num [exOffer, WAD]

/-- C4 amended: over the offers with matching token pair whose 18-decimal
fixed-point quotient `sell/buy` (Wad division, truncating — not exact
rational comparison) is at least the candidate's, `position` returns the id
of the first offer attaining the lowest such quotient, and `0` when no
offer qualifies. -/
theorem position_first_min_fixed_point (have_token want_token : Nat)
    (have_amount want_amount : Wad) (active_offers : List OfferInfo) :
    (active_offers.filter
        (offerEligible have_token have_amount want_token want_amount) = [] ∧
      MatchingMarket.position have_token have_amount want_token want_amount
        active_offers = 0) ∨
    (∃ pre o post,
      active_offers.filter
          (offerEligible have_token have_amount want_token want_amount) =
        pre ++ o :: post ∧
      MatchingMarket.position have_token have_amount want_token want_amount
        active_offers = o.offer_id ∧
      (∀ x ∈ pre, offerPriceKey o < offerPriceKey x) ∧
      (∀ x ∈ active_offers.filter
          (offerEligible have_token have_amount want_token want_amount),
        offerPriceKey o ≤ offerPriceKey x)) := by
  have heq := position_eq_firstMinBy have_token want_token have_amount
    want_amount active_offers
  cases hfm : firstMinBy offerPriceKey (active_offers.filter
      (offerEligible have_token have_amount want_token want_amount)) with
  | none =>
    left
    refine ⟨(firstMinBy_eq_none _ _).mp hfm, ?_⟩
    rw [heq, hfm]
  | some o =>
    right
    obtain ⟨pre, post, hsplit, hpre, hmin⟩ :=
      firstMinBy_eq_some offerPriceKey _ o hfm
    exact ⟨pre, o, post, hsplit, by rw [heq, hfm], hpre, hmin⟩

/-- C4 amended witness: the amended theorem applied to an empty order book
yields the sentinel position `0`. -/
theorem position_first_min_fixed_point_witness :
    MatchingMarket.position 0 ⟨2⟩ 1 ⟨1⟩ [] = 0 := by
  rcases position_first_min_fixed_point 0 1 ⟨2⟩ ⟨1⟩ [] with ⟨h1, h2⟩ |
    ⟨pre, o, post, hsplit, hrest⟩
  · exact h2
  · exact absurd hsplit (by simp)

end Keeper
